import Mathlib

/-!
A shallow embedding of the poster import pipeline in
`data-prep/import_posters.py` of the `mad` repository, together with
theorems checking the natural-language specification against it.

Python strings are modelled as Lean `String`s (lists of characters);
Python `datetime.now()` timestamps are modelled as an explicit `Nat`
parameter threaded through the functions that read the clock; Python
dicts with optional keys become structures with `Option` fields, and
dicts used as ordered maps become association lists with insertion-order
semantics.
-/

namespace MadImport

/-! ## Character and string helpers

These model the small amount of Python string/regex machinery that
the script uses: lower-casing, substring search (`in`,
`re.search` of literal alternatives), the specific regular expressions
appearing in the script, `str.strip`, `str.split('\n')`, slicing and
`' '.join`.  Python `len` counts characters, matching `List.length` on
the character list. -/

/-- Lower-case every character (models `str.lower()` for the ASCII
text the heuristics are aimed at). -/
def lowerChars (s : List Char) : List Char := s.map Char.toLower

/-- `pre` is a prefix of `s` (character-wise). -/
def startsWithChars : List Char → List Char → Bool
  | [], _ => true
  | _ :: _, [] => false
  | c :: cs, d :: ds => c = d && startsWithChars cs ds

/-- `sub` occurs somewhere in `s` (models Python `sub in s`). -/
def charsContains (s sub : List Char) : Bool :=
  match s with
  | [] => startsWithChars sub []
  | c :: cs => startsWithChars sub (c :: cs) || charsContains cs sub

/-- Remainder of `s` strictly after the first occurrence of `sub`;
`none` when `sub` does not occur.  Used to chain the `.*`-separated
literal pieces of a regular expression. -/
def charsAfter : List Char → List Char → Option (List Char)
  | [], sub => if startsWithChars sub [] then some [] else none
  | c :: cs, sub =>
    if startsWithChars sub (c :: cs) then some ((c :: cs).drop sub.length)
    else charsAfter cs sub

/-- `re.search` of a pattern of literal pieces separated by `.*`
(e.g. `rise.*research.*institute`): each piece occurs, in order. -/
def matchSeq : List (List Char) → List Char → Bool
  | [], _ => true
  | p :: ps, s =>
    match charsAfter s p with
    | some rest => matchSeq ps rest
    | none => false

/-- `re.search(r'page \d+', s)`: the literal `page ` followed by a
digit occurs somewhere. -/
def pageNumPat : List Char → Bool
  | [] => false
  | c :: cs =>
    (startsWithChars "page ".toList (c :: cs) && ((cs.drop 4).headD 'x').isDigit)
    || pageNumPat cs

/-- `re.search(r'^\d+$', s)`: the whole line is one or more digits. -/
def bareNumeral (s : List Char) : Bool :=
  !s.isEmpty && s.all Char.isDigit

/-- The `skip_patterns` test of `extract_title_from_text`: any of the
five patterns matches the line case-insensitively. -/
def titleSkipPattern (line : String) : Bool :=
  let l := lowerChars line.toList
  matchSeq ["rise".toList, "research".toList, "institute".toList] l
  || charsContains l "university".toList
  || charsContains l "department".toList
  || pageNumPat l
  || bareNumeral l

/-- The second filter of the first loop: too short, contains `@`, or
contains `http` case-insensitively. -/
def titleJunk (line : String) : Bool :=
  decide (line.length < 10) || line.toList.contains '@'
  || charsContains (lowerChars line.toList) "http".toList

/-- The acceptance test of the first loop: length within `[10, 150]`
and at least one upper-case character. -/
def titleAccept (line : String) : Bool :=
  decide (10 ≤ line.length) && decide (line.length ≤ 150)
  && line.toList.any Char.isUpper

/-- First `max` characters of a string (Python `line[:max]`). -/
def strTake (s : String) (n : Nat) : String := ⟨s.toList.take n⟩

/-- `PosterImporter.extract_title_from_text`: smart title extraction
from text lines. -/
def extract_title_from_text (lines : List String) (poster_id : String) : String :=
  if lines.isEmpty then "Research Poster " ++ poster_id
  else
    match (lines.take 10).find? (fun line =>
        !titleSkipPattern line && !titleJunk line && titleAccept line) with
    | some line => line
    | none =>
      match (lines.take 5).find? (fun line => decide (10 < line.length)) with
      | some line => if 150 < line.length then strTake line 150 ++ "..." else line
      | none => "Research Poster " ++ poster_id

/-! ## Text-heuristic extraction (`parse_poster_content`) -/

/-- `str.strip()`: remove leading and trailing whitespace. -/
def stripChars (s : List Char) : List Char :=
  ((s.dropWhile Char.isWhitespace).reverse.dropWhile Char.isWhitespace).reverse

/-- `str.strip()` on strings. -/
def strip (s : String) : String := ⟨stripChars s.toList⟩

/-- `text.split('\n')`: split at every newline character. -/
def splitNewlines : List Char → List Char → List String
  | [], cur => [⟨cur.reverse⟩]
  | c :: cs, cur =>
    if c = '\n' then ⟨cur.reverse⟩ :: splitNewlines cs [] else splitNewlines cs (c :: cur)

/-- `[line.strip() for line in text.split('\n') if line.strip()]`. -/
def contentLines (text : String) : List String :=
  ((splitNewlines text.toList []).map strip).filter (fun l => l ≠ "")

/-- The first two characters are an upper-case letter followed by a
lower-case letter. -/
def upperLowerPairAt : List Char → Bool
  | c :: d :: _ => c.isUpper && d.isLower
  | _ => false

/-- Remainder after the first upper/lower adjacent pair (both pair
characters consumed); `none` when no such pair occurs. -/
def findPairRest : List Char → Option (List Char)
  | [] => none
  | c :: cs => if upperLowerPairAt (c :: cs) then some (cs.drop 1) else findPairRest cs

/-- `re.search(r'[A-Z][a-z]+.*[A-Z][a-z]+', line)`: two upper/lower
letter groups occur, the second starting at least two characters after
the first. -/
def authorLinePat (line : String) : Bool :=
  match findPairRest line.toList with
  | some rest => (findPairRest rest).isSome
  | none => false

/-- `re.split(r',|and|\s{2,}', line)`, fuel-driven: scan left to
right, splitting on a comma, on the literal `and`, or on a maximal run
of two or more whitespace characters (the regex alternatives in that
order).  Every step consumes at least one character, so fuel equal to
the input length (as supplied by `splitAuthorsAux`) never runs out. -/
def splitAuthorsFuel : Nat → List Char → List Char → List (List Char)
  | _, [], cur => [cur.reverse]
  | 0, s, cur => [cur.reverse ++ s]
  | fuel + 1, c :: rest, cur =>
    if c = ',' then cur.reverse :: splitAuthorsFuel fuel rest []
    else if startsWithChars "and".toList (c :: rest) then
      cur.reverse :: splitAuthorsFuel fuel (rest.drop 2) []
    else if c.isWhitespace && (rest.headD 'x').isWhitespace then
      cur.reverse :: splitAuthorsFuel fuel (rest.dropWhile Char.isWhitespace) []
    else splitAuthorsFuel fuel rest (c :: cur)

/-- `re.split(r',|and|\s{2,}', line)` on a whole line. -/
def splitAuthorsAux (s : List Char) (cur : List Char) : List (List Char) :=
  splitAuthorsFuel s.length s cur

/-- The author-collection loop of `parse_poster_content`: over
`lines[1:5]`, for each line matching the author pattern and shorter
than 100 characters, extend with the stripped, non-empty split pieces. -/
def authorCandidates (lines : List String) : List String :=
  ((lines.drop 1).take 4).foldl (fun acc line =>
    if authorLinePat line && decide (line.length < 100) then
      acc ++ (((splitAuthorsAux line.toList []).map (fun cs => strip ⟨cs⟩)).filter
        (fun a => a ≠ ""))
    else acc) []

/-- A line contains one of the `abstract_keywords` case-insensitively. -/
def hasAbstractKeyword (line : String) : Bool :=
  let l := lowerChars line.toList
  charsContains l "abstract".toList || charsContains l "summary".toList
  || charsContains l "introduction".toList

/-- `' '.join(...)`. -/
def joinSpace (ls : List String) : String := String.intercalate " " ls

/-- The inner accumulation loop after an abstract keyword was found:
append lines longer than 20 characters, stop once the joined text
exceeds 300 characters. -/
def collectAbstract : List String → List String → List String
  | [], acc => acc
  | l :: rest, acc =>
    let acc2 := if 20 < l.length then acc ++ [l] else acc
    if 300 < (joinSpace acc2).length then acc2 else collectAbstract rest acc2

/-- Find the first line containing an abstract keyword and accumulate
from the following (at most nine) lines. -/
def findAbstractSection : List String → Option String
  | [] => none
  | l :: rest =>
    if hasAbstractKeyword l then some (joinSpace (collectAbstract (rest.take 9) []))
    else findAbstractSection rest

/-- The abstract part of `parse_poster_content`: keyword section, then
the first line of `lines[2:]` longer than 100 characters (truncated at
400 with an ellipsis), then a fixed placeholder. -/
def parse_abstract (lines : List String) : String :=
  let a1 := match findAbstractSection lines with | some s => s | none => ""
  let a2 :=
    if a1 = "" then
      match (lines.drop 2).find? (fun l => decide (100 < l.length)) with
      | some l => if 400 < l.length then strTake l 400 ++ "..." else l
      | none => ""
    else a1
  if a2 = "" then "Research poster content extracted from PDF." else a2

/-- The `tech_keywords` dictionary, in its (insertion-order) iteration
order. -/
def tech_keywords : List (String × String) :=
  [("ai", "artificial-intelligence"), ("machine learning", "machine-learning"),
   ("deep learning", "deep-learning"), ("neural network", "neural-networks"),
   ("robot", "robotics"), ("iot", "iot"), ("edge", "edge-computing"),
   ("security", "security"), ("privacy", "privacy"), ("healthcare", "healthcare"),
   ("sustainable", "sustainability"), ("quantum", "quantum-computing"),
   ("federated", "federated-learning"), ("computer vision", "computer-vision"),
   ("nlp", "nlp")]

/-- Tag inference: keyword membership in the lower-cased full text,
deduplicated, in dictionary order. -/
def inferTags (text : String) : List String :=
  let tl := lowerChars text.toList
  tech_keywords.foldl (fun tags kv =>
    if charsContains tl kv.1.toList && !tags.contains kv.2 then tags ++ [kv.2]
    else tags) []

/-- The content fields produced by an extraction strategy
(`{title, authors, tags, abstract}`). -/
structure Content where
  title : String
  authors : List String
  tags : List String
  abstract : String
deriving DecidableEq

/-- `PosterImporter.parse_poster_content`: the text-heuristic fallback
extractor. -/
def parse_poster_content (text : String) (poster_id : String) : Content :=
  let lines := contentLines text
  let title := extract_title_from_text lines poster_id
  let authors0 := authorCandidates lines
  let authors := if authors0.isEmpty then ["Unknown Author"] else authors0
  let abstract := parse_abstract lines
  let tags0 := inferTags text
  let tags := if tags0.isEmpty then ["research", "computer-science"] else tags0
  { title := title, authors := authors.take 3, abstract := abstract,
    tags := tags.take 5 }

/-! ## Override application (`apply_overrides`) -/

/-- First-match association-list lookup (Python dict keys are unique,
so this models `overrides[pdf_basename]`). -/
def lookupKey {β : Type} : List (String × β) → String → Option β
  | [], _ => none
  | (k, v) :: rest, key => if k = key then some v else lookupKey rest key

/-- A structured override mapping: the fields it names among
`{title, authors, tags, abstract}` (extra keys in the YAML mapping are
never read by the code). -/
structure OverrideFields where
  title : Option String
  authors : Option (List String)
  tags : Option (List String)
  abstract : Option String
deriving DecidableEq

/-- One override value from the YAML file: a bare string, a structured
mapping, or any other YAML value (which the code ignores). -/
inductive OverrideVal where
  | str (s : String)
  | mapping (m : OverrideFields)
  | other
deriving DecidableEq

/-- `PosterImporter.apply_overrides`. -/
def apply_overrides (content : Content) (pdf_basename : String)
    (overrides : List (String × OverrideVal)) : Content :=
  match lookupKey overrides pdf_basename with
  | none => content
  | some (.str s) => { content with title := s }
  | some (.mapping m) =>
    { title := m.title.getD content.title,
      authors := m.authors.getD content.authors,
      tags := m.tags.getD content.tags,
      abstract := m.abstract.getD content.abstract }
  | some .other => content

/-! ## Data model: poster records and the two stores -/

/-- The provenance block (`metadata` key of a record). -/
structure Metadata where
  source : Option String
  source_file : Option String
  created_at : Option Nat
  updated_at : Option Nat
deriving DecidableEq

/-- A poster record: a JSON object whose keys may each be present or
absent.  The fields are the content fields, the six curated
(`PRESERVE_FIELDS`) fields, and the provenance block. -/
structure Poster where
  id : Option String
  title : Option String
  authors : Option (List String)
  tags : Option (List String)
  abstract : Option String
  poster_image : Option String
  faq : Option (List (String × String))
  booth_id : Option String
  room : Option String
  related_links : Option (List String)
  keywords : Option (List String)
  contact_email : Option String
  metadata : Option Metadata
deriving DecidableEq

/-- The structured store (`backend/posters.json` after
normalization). -/
structure Store where
  schema_version : String
  last_updated : Nat
  posters : List Poster
deriving DecidableEq

/-- `PosterImporter.PRESERVE_FIELDS` (a Python `set`; the code only
relies on membership, the iteration order here is the literal's). -/
def PRESERVE_FIELDS : List String :=
  ["faq", "booth_id", "room", "related_links", "keywords", "contact_email"]

/-- `PosterImporter.REQUIRED_FIELDS`. -/
def REQUIRED_FIELDS : List String :=
  ["id", "title", "authors", "tags", "abstract", "poster_image"]

/-- `field in poster` for the curated fields. -/
def hasCuratedField (p : Poster) : String → Bool
  | "faq" => p.faq.isSome
  | "booth_id" => p.booth_id.isSome
  | "room" => p.room.isSome
  | "related_links" => p.related_links.isSome
  | "keywords" => p.keywords.isSome
  | "contact_email" => p.contact_email.isSome
  | _ => false

/-- `field in poster` for the required fields. -/
def hasRequiredField (p : Poster) : String → Bool
  | "id" => p.id.isSome
  | "title" => p.title.isSome
  | "authors" => p.authors.isSome
  | "tags" => p.tags.isSome
  | "abstract" => p.abstract.isSome
  | "poster_image" => p.poster_image.isSome
  | _ => false

/-! ## Merge engine (`merge_poster`) -/

/-- `if field in new: merged[field] = new[field]` — keep the new value
when present, the old one otherwise. -/
def mergeField {α : Type} (newv oldv : Option α) : Option α :=
  match newv with
  | some v => some v
  | none => oldv

/-- The warning logged when a candidate explicitly supplies a curated
field (`Updating manually curated field '<f>' for <id>`; Python prints
`None` for a missing id). -/
def warnMsg (field : String) (id : Option String) : String :=
  "Updating manually curated field " ++ field ++ " for " ++
    (match id with | some s => s | none => "None")

/-- `PosterImporter.merge_poster`, returning the merged record and the
warning-level log messages it emits. -/
def merge_poster (existing new : Poster) (now : Nat) : Poster × List String :=
  let warns := (PRESERVE_FIELDS.filter (fun f => hasCuratedField new f)).map
    (fun f => warnMsg f existing.id)
  let base := existing.metadata.getD
    { source := none, source_file := none, created_at := none, updated_at := none }
  let created :=
    match existing.metadata with
    | some m => match m.created_at with | some t => t | none => now
    | none => now
  let m1 : Metadata := { base with updated_at := some now, created_at := some created }
  let m2 : Metadata :=
    match new.metadata with
    | none => m1
    | some nm =>
      { m1 with source := mergeField nm.source m1.source,
                source_file := mergeField nm.source_file m1.source_file }
  ({ id := existing.id,
     title := mergeField new.title existing.title,
     abstract := mergeField new.abstract existing.abstract,
     authors := mergeField new.authors existing.authors,
     tags := mergeField new.tags existing.tags,
     poster_image := mergeField new.poster_image existing.poster_image,
     faq := mergeField new.faq existing.faq,
     booth_id := mergeField new.booth_id existing.booth_id,
     room := mergeField new.room existing.room,
     related_links := mergeField new.related_links existing.related_links,
     keywords := mergeField new.keywords existing.keywords,
     contact_email := mergeField new.contact_email existing.contact_email,
     metadata := some m2 }, warns)

/-! ## Validator (`validate_poster`, `validate_backend`) -/

/-- `PosterImporter.validate_poster`: the set difference
`REQUIRED_FIELDS - set(poster.keys())` is empty. -/
def validate_poster (p : Poster) : Bool :=
  (REQUIRED_FIELDS.filter (fun f => !hasRequiredField p f)).isEmpty

/-- The per-record Godot-asset check of `validate_backend`: only
performed when the record's id is truthy (present and non-empty). -/
def assetCheckOk (p : Poster) (assetExists : String → Bool) : Bool :=
  match p.id with
  | some i => if i = "" then true else assetExists i
  | none => true

/-- The per-file loop body of `validate_backend`: every record passes
`validate_poster` and has its display asset. -/
def validate_file (posters : List Poster) (assetExists : String → Bool) : Bool :=
  posters.all (fun p => validate_poster p && assetCheckOk p assetExists)

/-- `PosterImporter.validate_backend`: both backend files exist (a
`none` file is a missing file) and every record of each passes both
per-record checks.  `assetExists` is the external asset store queried
through `png_path.exists()`. -/
def validate_backend (postersFile dataFile : Option (List Poster))
    (assetExists : String → Bool) : Bool :=
  (match postersFile with | none => false | some ps => validate_file ps assetExists) &&
  (match dataFile with | none => false | some ps => validate_file ps assetExists)

/-! ## Persistence layer (`update_backend`)

The `existing_map` Python dict is modelled as an association list with
insertion-order semantics: inserting an existing key updates the value
in place, deleting removes the entry, `values()` reads the remaining
values in order.  `p['id']` on a record without an id raises
`KeyError`, modelled as `none` (the exception occurs before any file
is written). -/

def dictInsert : List (String × Poster) → String → Poster → List (String × Poster)
  | [], k, v => [(k, v)]
  | (k2, v2) :: rest, k, v =>
    if k2 = k then (k2, v) :: rest else (k2, v2) :: dictInsert rest k v

def dictGet : List (String × Poster) → String → Option Poster
  | [], _ => none
  | (k2, v) :: rest, k => if k2 = k then some v else dictGet rest k

def dictDel : List (String × Poster) → String → List (String × Poster)
  | [], _ => []
  | (k2, v) :: rest, k => if k2 = k then rest else (k2, v) :: dictDel rest k

/-- `{p['id']: p for p in data['posters']}`. -/
def buildMap : List Poster → List (String × Poster) → Option (List (String × Poster))
  | [], m => some m
  | p :: rest, m =>
    match p.id with
    | none => none
    | some k => buildMap rest (dictInsert m k p)

/-- The merge loop of `update_backend`: each candidate replaces (via
`merge_poster`) the same-id record of the map, or is appended as a new
record; matched entries are deleted from the map. -/
def mergeLoop (now : Nat) :
    List Poster → List (String × Poster) → List Poster →
    Option (List (String × Poster) × List Poster)
  | [], m, acc => some (m, acc)
  | np :: rest, m, acc =>
    match np.id with
    | none => none
    | some pid =>
      match dictGet m pid with
      | some ex => mergeLoop now rest (dictDel m pid) (acc ++ [(merge_poster ex np now).1])
      | none => mergeLoop now rest m (acc ++ [np])

/-- `PosterImporter.update_backend`: merge (or replace) the loaded
structured store with the candidate batch, stamp `last_updated`, and
write the structured file and then the flat file (the returned pair:
structured store, flat array). -/
def update_backend (data : Store) (newPosters : List Poster) (merge : Bool)
    (now : Nat) : Option (Store × List Poster) :=
  if merge then
    match buildMap data.posters [] with
    | none => none
    | some m =>
      match mergeLoop now newPosters m [] with
      | none => none
      | some (m2, updated) =>
        let st : Store := { schema_version := data.schema_version, last_updated := now,
                            posters := updated ++ m2.map Prod.snd }
        some (st, st.posters)
  else
    let st : Store := { schema_version := data.schema_version, last_updated := now,
                        posters := newPosters }
    some (st, st.posters)

/-! ## Extraction over a PDF batch (`process_pdfs`) -/

/-- One source PDF, with the outcomes of the external collaborators:
whether `pdf_to_png` succeeds, the text `extract_text_from_pdf`
returns, and what `extract_metadata_with_vision` returns (`none` is a
vision failure). -/
structure PdfSource where
  stem : String
  renderOk : Bool
  text : String
  visionResult : Option Content
deriving DecidableEq

/-- `f"poster_{idx:03d}"`'s number part. -/
def pad3 (n : Nat) : String :=
  if n < 10 then "00" ++ toString n
  else if n < 100 then "0" ++ toString n
  else toString n

/-- `f"poster_{idx:03d}"`. -/
def posterIdFor (idx : Nat) : String := "poster_" ++ pad3 idx

/-- The record `process_pdfs` builds for one source. -/
def mkPoster (pid : String) (c : Content) (src : PdfSource) (now : Nat) : Poster :=
  { id := some pid,
    title := some c.title,
    authors := some c.authors,
    tags := some c.tags,
    abstract := some c.abstract,
    poster_image := some ("res://assets/posters/" ++ pid ++ ".png"),
    faq := none, booth_id := none, room := none,
    related_links := none, keywords := none, contact_email := none,
    metadata := some { source := some "pdf_import",
                       source_file := some (src.stem ++ ".pdf"),
                       created_at := some now, updated_at := some now } }

/-- The per-source loop of `process_pdfs`, with `idx` the enumeration
counter (`enumerate(pdf_files, start=start_id)`): a failed PNG
conversion logs a warning and skips the source (`continue`); otherwise
metadata is extracted (vision first when enabled, text parsing as
fallback), overrides applied, and the record emitted. -/
def processLoop (useVision : Bool) (overrides : List (String × OverrideVal))
    (now : Nat) : List PdfSource → Nat → List Poster
  | [], _ => []
  | src :: rest, idx =>
    let pid := posterIdFor idx
    if !src.renderOk then processLoop useVision overrides now rest (idx + 1)
    else
      let content0 :=
        if useVision then
          match src.visionResult with
          | some c => c
          | none => parse_poster_content src.text pid
        else parse_poster_content src.text pid
      let content := apply_overrides content0 src.stem overrides
      mkPoster pid content src now :: processLoop useVision overrides now rest (idx + 1)

/-- `PosterImporter.process_pdfs` (the sources are given in the sorted
order the code enumerates them in). -/
def process_pdfs (sources : List PdfSource) (startId : Nat) (useVision : Bool)
    (overrides : List (String × OverrideVal)) (now : Nat) : List Poster :=
  processLoop useVision overrides now sources startId

/-! ## Import orchestrator (the import tail of `main`)

Models `main` from the point where the candidate batch has been
produced: an empty batch exits 1 without writing; otherwise
`update_backend` writes both representations, and only then
`validate_backend` runs on the files just written; a failed validation
exits 1.  The result is the pair of written representations (`none`
when nothing was written) and the process exit code. -/
def importRun (data : Store) (newPosters : List Poster) (replace : Bool)
    (now : Nat) (assetExists : String → Bool) :
    Option (Store × List Poster) × Nat :=
  if newPosters.isEmpty then (none, 1)
  else
    match update_backend data newPosters (!replace) now with
    | none => (none, 1)
    | some (st, flat) =>
      if validate_backend (some st.posters) (some flat) assetExists then
        (some (st, flat), 0)
      else (some (st, flat), 1)

/-! ## Relations for the idempotence analysis -/

/-- The `source` entry of the provenance block, when present. -/
def msource (p : Poster) : Option String := p.metadata.bind fun m => m.source

/-- The `source_file` entry of the provenance block, when present. -/
def msourceFile (p : Poster) : Option String := p.metadata.bind fun m => m.source_file

/-- The `created_at` entry of the provenance block, when present. -/
def mcreated (p : Poster) : Option Nat := p.metadata.bind fun m => m.created_at

/-- The content fields of `p` and `q` coincide. -/
def contentEq (p q : Poster) : Prop :=
  p.title = q.title ∧ p.authors = q.authors ∧ p.tags = q.tags ∧
  p.abstract = q.abstract ∧ p.poster_image = q.poster_image

/-- The curated fields of `p` and `q` coincide. -/
def curatedEq (p q : Poster) : Prop :=
  p.faq = q.faq ∧ p.booth_id = q.booth_id ∧ p.room = q.room ∧
  p.related_links = q.related_links ∧ p.keywords = q.keywords ∧
  p.contact_email = q.contact_email

/-- `p` and `q` agree on the id, every content field, every curated
field, presence of the provenance block and its `source`/`source_file`
entries — everything except possibly the `created_at`/`updated_at`
timestamps. -/
def eqExceptTimestamps (p q : Poster) : Prop :=
  p.id = q.id ∧ contentEq p q ∧ curatedEq p q ∧
  p.metadata.isSome = q.metadata.isSome ∧
  msource p = msource q ∧ msourceFile p = msourceFile q

/-- No curated field is present. -/
def curatedAbsent (p : Poster) : Prop :=
  p.faq = none ∧ p.booth_id = none ∧ p.room = none ∧
  p.related_links = none ∧ p.keywords = none ∧ p.contact_email = none

/-- The shape of a candidate record as produced by `process_pdfs`: an
id, no curated fields, and a provenance block carrying
`created_at`, `source` and `source_file`. -/
def isCandidate (p : Poster) : Prop :=
  p.id.isSome ∧ curatedAbsent p ∧ (mcreated p).isSome ∧
  (msource p).isSome ∧ (msourceFile p).isSome

/-- `c2` is a re-extraction of the same source as `c`: the id, the
content fields and the provenance `source`/`source_file` coincide (the
extraction timestamps may differ). -/
def sameExtract (c c2 : Poster) : Prop :=
  c.id = c2.id ∧ c.title = c2.title ∧ c.authors = c2.authors ∧ c.tags = c2.tags ∧
  c.abstract = c2.abstract ∧ c.poster_image = c2.poster_image ∧
  msource c = msource c2 ∧ msourceFile c = msourceFile c2

/-- What a store record `r` must satisfy so that merging the
re-extraction `c2` into it changes at most timestamps: same id, every
content field `c2` supplies already has that value in `r`, `c2`
supplies no curated field, `r` carries a `created_at`, and the
provenance `source`/`source_file` of `c2` are present and already
those of `r`. -/
def remergeReady (r c2 : Poster) : Prop :=
  (∃ pid, r.id = some pid ∧ c2.id = some pid) ∧
  (∀ v, c2.title = some v → r.title = some v) ∧
  (∀ v, c2.authors = some v → r.authors = some v) ∧
  (∀ v, c2.tags = some v → r.tags = some v) ∧
  (∀ v, c2.abstract = some v → r.abstract = some v) ∧
  (∀ v, c2.poster_image = some v → r.poster_image = some v) ∧
  curatedAbsent c2 ∧ (mcreated r).isSome ∧
  (msource c2).isSome ∧ msource r = msource c2 ∧
  (msourceFile c2).isSome ∧ msourceFile r = msourceFile c2

/-- Well-formedness of the id-keyed dict: keys are unique and each
value's id is its key. -/
def mapWF (m : List (String × Poster)) : Prop :=
  (m.map Prod.fst).Nodup ∧ ∀ e ∈ m, e.2.id = some e.1

instance (p : Poster) : Decidable (curatedAbsent p) := by
  unfold curatedAbsent; infer_instance

instance (p : Poster) : Decidable (isCandidate p) := by
  unfold isCandidate; infer_instance

instance (c c2 : Poster) : Decidable (sameExtract c c2) := by
  unfold sameExtract; infer_instance

/-! ## Concrete records used in instantiations -/

/-- A record with all required keys present. -/
def exPoster (i t : String) : Poster :=
  { id := some i, title := some t, authors := some ["A. Author"], tags := some ["tag"],
    abstract := some "An abstract.",
    poster_image := some ("res://assets/posters/" ++ i ++ ".png"),
    faq := none, booth_id := none, room := none, related_links := none,
    keywords := none, contact_email := none, metadata := none }

/-- All required keys present, but with an empty abstract string. -/
def posterEmptyAbstract : Poster :=
  { exPoster "poster_001" "T" with abstract := some "" }

/-- An existing curated record: `booth_id = "B3"` and a FAQ. -/
def exCurated : Poster :=
  { exPoster "poster_001" "Old title" with
      faq := some [("Q1", "A1")], booth_id := some "B3" }

/-- A candidate that explicitly supplies `booth_id = "B9"` and no
`faq`. -/
def exCandidate : Poster :=
  { exPoster "poster_001" "New title" with booth_id := some "B9" }

/-- A candidate record of the shape `process_pdfs` produces. -/
def candWitness : Poster :=
  { exPoster "poster_001" "T" with
      metadata := some { source := some "pdf_import", source_file := some "a.pdf",
                         created_at := some 0, updated_at := some 0 } }

/-- The empty structured store. -/
def st0 : Store := { schema_version := "1.0", last_updated := 0, posters := [] }

/-- The store after a first import of `[candWitness]` into `st0` at
time 1. -/
def stW1 : Store := { schema_version := "1.0", last_updated := 1, posters := [candWitness] }

/-- The store after a second import of `[candWitness]` into `stW1` at
time 2. -/
def stW2 : Store :=
  { schema_version := "1.0", last_updated := 2,
    posters := [(merge_poster candWitness candWitness 2).1] }

/-- The store produced by importing `[candWitness]` into `st0` at time
5. -/
def stWitness : Store :=
  { schema_version := "1.0", last_updated := 5, posters := [candWitness] }

/-- A source whose PNG rendering fails. -/
def badSrc : PdfSource := { stem := "bad", renderOk := false, text := "", visionResult := none }

/-- A source whose PNG rendering succeeds. -/
def goodSrc : PdfSource := { stem := "good", renderOk := true, text := "", visionResult := none }

/-- Modelled from the spec's words (`Every record has all required
fields non-empty`), for comparison with the code's `validate_poster`:
each required field is present and non-empty (a missing field and an
empty value coincide under `getD`). -/
def requiredNonemptySpec (p : Poster) : Bool :=
  p.id.getD "" ≠ "" && p.title.getD "" ≠ "" && !(p.authors.getD []).isEmpty &&
  !(p.tags.getD []).isEmpty && p.abstract.getD "" ≠ "" && p.poster_image.getD "" ≠ ""

/-! ## Theorems -/

/-! ### Basic facts about the extraction heuristics -/

theorem ne_empty_of_length_pos {s : String} (h : 0 < s.length) : s ≠ "" := by
  intro he
  subst he
  exact absurd h (by decide)

theorem research_poster_title_ne_empty (pid : String) :
    ("Research Poster " ++ pid) ≠ "" := by
  apply ne_empty_of_length_pos
  rw [String.length_append]
  have h16 : ("Research Poster " : String).length = 16 := by decide
  omega

theorem extract_title_from_text_ne_empty (lines : List String) (pid : String) :
    extract_title_from_text lines pid ≠ "" := by
  unfold extract_title_from_text
  split
  · exact research_poster_title_ne_empty pid
  · split
    next line hfind =>
      have hp := List.find?_some hfind
      simp only [Bool.and_eq_true, titleAccept, decide_eq_true_eq] at hp
      exact ne_empty_of_length_pos (by omega)
    next hfind =>
      split
      next line hfind2 =>
        have hp := List.find?_some hfind2
        simp only [decide_eq_true_eq] at hp
        split
        · apply ne_empty_of_length_pos
          rw [String.length_append]
          have h3 : ("..." : String).length = 3 := by decide
          omega
        · exact ne_empty_of_length_pos (by omega)
      next => exact research_poster_title_ne_empty pid

theorem defaulted_take_ne_nil {α : Type} (l : List α) (d : α) (n : Nat) (hn : n ≠ 0) :
    (if l.isEmpty then [d] else l).take n ≠ [] := by
  cases l <;> cases n <;> simp_all

theorem defaulted2_take_ne_nil {α : Type} (l : List α) (d e : α) (n : Nat) (hn : n ≠ 0) :
    (if l.isEmpty then [d, e] else l).take n ≠ [] := by
  cases l <;> cases n <;> simp_all

theorem parse_abstract_ne_empty (lines : List String) : parse_abstract lines ≠ "" := by
  have h : ∀ s : String,
      (if s = "" then "Research poster content extracted from PDF." else s) ≠ "" := by
    intro s
    split
    · decide
    · assumption
  exact h _

/-- C10: for every input text (including empty text) and poster id,
`parse_poster_content` returns a candidate with a non-empty title, a
non-empty author list of at most 3 entries, a non-empty abstract, and a
non-empty tag list of at most 5 entries; on empty text the authors,
abstract and tags take the fixed default values. -/
theorem parse_poster_content_total_defaults :
    (∀ (text poster_id : String),
      (parse_poster_content text poster_id).title ≠ "" ∧
      (parse_poster_content text poster_id).authors ≠ [] ∧
      (parse_poster_content text poster_id).authors.length ≤ 3 ∧
      (parse_poster_content text poster_id).abstract ≠ "" ∧
      (parse_poster_content text poster_id).tags ≠ [] ∧
      (parse_poster_content text poster_id).tags.length ≤ 5) ∧
    (∀ poster_id : String,
      (parse_poster_content "" poster_id).authors = ["Unknown Author"] ∧
      (parse_poster_content "" poster_id).abstract =
        "Research poster content extracted from PDF." ∧
      (parse_poster_content "" poster_id).tags = ["research", "computer-science"]) := by
  constructor
  · intro text poster_id
    refine ⟨extract_title_from_text_ne_empty _ _,
      defaulted_take_ne_nil (authorCandidates (contentLines text)) "Unknown Author" 3
        (by decide),
      List.length_take_le _ _,
      parse_abstract_ne_empty _,
      defaulted2_take_ne_nil (inferTags text) "research" "computer-science" 5
        (by decide),
      List.length_take_le _ _⟩
  · intro poster_id
    exact ⟨rfl, rfl, rfl⟩

/-- C8: on the line sequence of the spec example, the title heuristic
skips the institutional boilerplate line and the page-number line and
returns the third line verbatim. -/
theorem extract_title_example :
    ∀ poster_id : String,
      extract_title_from_text
        ["RISE Research Institute", "Page 3",
         "Federated Learning for Edge Devices in Smart Grids", "J. Doe, A. Smith"]
        poster_id = "Federated Learning for Edge Devices in Smart Grids" :=
  fun _ => rfl

/-! ### C9: override application -/

/-- C9: for every candidate content record, filename stem and override
mapping: a bare-string override replaces only the title; a structured
mapping replaces exactly the fields it names among
`{title, authors, tags, abstract}` and leaves every unnamed field
untouched; no matching key is a no-op. -/
theorem apply_overrides_cases (content : Content) (stem : String)
    (overrides : List (String × OverrideVal)) :
    (lookupKey overrides stem = none →
      apply_overrides content stem overrides = content) ∧
    (∀ s, lookupKey overrides stem = some (.str s) →
      (apply_overrides content stem overrides).title = s ∧
      (apply_overrides content stem overrides).authors = content.authors ∧
      (apply_overrides content stem overrides).tags = content.tags ∧
      (apply_overrides content stem overrides).abstract = content.abstract) ∧
    (∀ m, lookupKey overrides stem = some (.mapping m) →
      ((m.title = none → (apply_overrides content stem overrides).title = content.title) ∧
        (∀ v, m.title = some v → (apply_overrides content stem overrides).title = v)) ∧
      ((m.authors = none →
          (apply_overrides content stem overrides).authors = content.authors) ∧
        (∀ v, m.authors = some v → (apply_overrides content stem overrides).authors = v)) ∧
      ((m.tags = none → (apply_overrides content stem overrides).tags = content.tags) ∧
        (∀ v, m.tags = some v → (apply_overrides content stem overrides).tags = v)) ∧
      ((m.abstract = none →
          (apply_overrides content stem overrides).abstract = content.abstract) ∧
        (∀ v, m.abstract = some v →
          (apply_overrides content stem overrides).abstract = v))) := by
  refine ⟨?_, ?_, ?_⟩
  · intro h
    simp [apply_overrides, h]
  · intro s h
    simp [apply_overrides, h]
  · intro m h
    refine ⟨⟨?_, ?_⟩, ⟨?_, ?_⟩, ⟨?_, ?_⟩, ⟨?_, ?_⟩⟩
    all_goals
      first
        | (intro hnone; simp [apply_overrides, h, hnone])
        | (intro v hv; simp [apply_overrides, h, hv])

theorem apply_overrides_cases_witness :
    lookupKey [("p1", OverrideVal.str "Fixed Title")] "p1" =
      some (OverrideVal.str "Fixed Title") ∧
    (apply_overrides ⟨"T0", ["X"], ["t"], "abs"⟩ "p1"
        [("p1", OverrideVal.str "Fixed Title")]).title = "Fixed Title" ∧
    (apply_overrides ⟨"T0", ["X"], ["t"], "abs"⟩ "p1"
        [("p1", OverrideVal.str "Fixed Title")]).abstract = "abs" := by
  have h := (apply_overrides_cases ⟨"T0", ["X"], ["t"], "abs"⟩ "p1"
    [("p1", OverrideVal.str "Fixed Title")]).2.1 "Fixed Title" (by decide)
  exact ⟨by decide, h.1, h.2.2.2⟩

/-! ### C5: per-record validation -/

/-- C5 counterexample: a record whose `abstract` is present but empty
passes `validate_poster`, while the spec-side required-fields
predicate rejects it — so validation is not `present and non-empty`. -/
theorem validate_poster_accepts_empty_abstract :
    validate_poster posterEmptyAbstract = true ∧
    posterEmptyAbstract.abstract = some "" ∧
    requiredNonemptySpec posterEmptyAbstract = false := by decide

/-- C5 amended: `validate_poster` passes a record iff every required
field key (`id`, `title`, `authors`, `tags`, `abstract`,
`poster_image`) is present — emptiness of the value is not checked. -/
theorem validate_poster_iff_keys_present (p : Poster) :
    validate_poster p = true ↔
      p.id.isSome ∧ p.title.isSome ∧ p.authors.isSome ∧ p.tags.isSome ∧
      p.abstract.isSome ∧ p.poster_image.isSome := by
  cases h1 : p.id.isSome <;> cases h2 : p.title.isSome <;>
    cases h3 : p.authors.isSome <;> cases h4 : p.tags.isSome <;>
    cases h5 : p.abstract.isSome <;> cases h6 : p.poster_image.isSome <;>
    simp [validate_poster, REQUIRED_FIELDS, List.filter, hasRequiredField,
      h1, h2, h3, h4, h5, h6]

/-! ### C6: store validation and id uniqueness -/

/-- C6 counterexample: a store holding two distinct records that share
an id passes `validate_backend` (all required keys present, assets
present) — there is no id-uniqueness check. -/
theorem validate_backend_accepts_duplicate_ids :
    exPoster "poster_001" "A" ≠ exPoster "poster_001" "B" ∧
    (exPoster "poster_001" "A").id = (exPoster "poster_001" "B").id ∧
    validate_backend (some [exPoster "poster_001" "A", exPoster "poster_001" "B"])
      (some [exPoster "poster_001" "A", exPoster "poster_001" "B"])
      (fun _ => true) = true := by decide

/-- C6 amended: `validate_backend` checks only per-record required-key
presence and asset existence; any store whose records all pass those
two checks validates, with no uniqueness requirement on ids. -/
theorem validate_backend_passes_without_uniqueness (ps : List Poster)
    (assetExists : String → Bool)
    (h : ∀ p ∈ ps, validate_poster p = true ∧ assetCheckOk p assetExists = true) :
    validate_backend (some ps) (some ps) assetExists = true := by
  have hfile : validate_file ps assetExists = true := by
    simp only [validate_file, List.all_eq_true]
    intro p hp
    simp [(h p hp).1, (h p hp).2]
  simp [validate_backend, hfile]

theorem validate_backend_passes_without_uniqueness_witness :
    validate_backend (some [exPoster "p" "A", exPoster "p" "B"])
      (some [exPoster "p" "A", exPoster "p" "B"]) (fun _ => true) = true :=
  validate_backend_passes_without_uniqueness
    [exPoster "p" "A", exPoster "p" "B"] (fun _ => true)
    (by intro p hp; fin_cases hp <;> exact ⟨by decide, by decide⟩)

/-! ### C4: the flat representation -/

/-- C4 counterexample: the flat file written by `update_backend` keeps
each record's provenance (`metadata`) block — only the schema wrapper
is stripped, so the field set is not restricted to content and curated
fields. -/
theorem flat_store_keeps_provenance :
    update_backend st0 [candWitness] true 5 = some (stWitness, [candWitness]) ∧
    candWitness.metadata.isSome = true := by decide

/-- C4 amended: on every successful `update_backend` the flat
representation is exactly the record sequence of the structured store
— the `schema_version`/`last_updated` wrapper is stripped, but the
records themselves (their provenance block included) are written
unchanged and in order. -/
theorem update_backend_flat_is_posters_array (data : Store) (nps : List Poster)
    (merge : Bool) (now : Nat) (st : Store) (flat : List Poster)
    (h : update_backend data nps merge now = some (st, flat)) :
    flat = st.posters := by
  unfold update_backend at h
  split at h
  · split at h
    · exact absurd h (by simp)
    · split at h
      · exact absurd h (by simp)
      · simp only [Option.some.injEq, Prod.mk.injEq] at h
        obtain ⟨hst, hflat⟩ := h
        subst hst
        exact hflat.symm
  · simp only [Option.some.injEq, Prod.mk.injEq] at h
    obtain ⟨hst, hflat⟩ := h
    subst hst
    exact hflat.symm

theorem update_backend_flat_is_posters_array_witness :
    update_backend st0 [candWitness] true 5 = some (stWitness, [candWitness]) ∧
    ([candWitness] : List Poster) = stWitness.posters := by
  refine ⟨by decide, ?_⟩
  exact update_backend_flat_is_posters_array st0 [candWitness] true 5 _ _ (by decide)

/-! ### C7: rendering failure handling -/

/-- C7 counterexample: when PNG rendering fails for a source, no
candidate record is produced for it at all — extraction does not
proceed for that source (here the failed first source yields nothing,
while the batch continues with the second source, which consumes the
next sequential id). -/
theorem process_pdfs_drops_failed_render :
    (process_pdfs [badSrc, goodSrc] 1 false [] 0).map Poster.id =
      [some "poster_002"] := by decide

/-- C7 amended: a source whose PNG rendering fails is logged and
skipped — extraction, override application and record construction are
not performed for it and it contributes no candidate (though it still
consumes its enumeration id) — and the batch continues with the
remaining sources. -/
theorem process_pdfs_failed_render_skips_source (src : PdfSource)
    (rest : List PdfSource) (startId : Nat) (uv : Bool)
    (ov : List (String × OverrideVal)) (now : Nat) (h : src.renderOk = false) :
    process_pdfs (src :: rest) startId uv ov now =
      process_pdfs rest (startId + 1) uv ov now := by
  simp [process_pdfs, processLoop, h]

theorem process_pdfs_failed_render_skips_source_witness :
    badSrc.renderOk = false ∧
    process_pdfs [badSrc, goodSrc] 1 false [] 0 = process_pdfs [goodSrc] 2 false [] 0 :=
  ⟨by decide, process_pdfs_failed_render_skips_source badSrc [goodSrc] 1 false [] 0
    (by decide)⟩

/-! ### C2: order of validation and persistence in an import run -/

/-- C2 counterexample: an import run whose validation fails (the asset
store is empty, so every `poster_image` asset is missing) still writes
both representations, and exits 1 — the Validator runs only after the
Persistence Layer has committed. -/
theorem importRun_writes_despite_validation_failure :
    importRun st0 [candWitness] false 5 (fun _ => false) =
      (some (stWitness, [candWitness]), 1) := by decide

/-- C2 amended: in an import run the Persistence Layer commits first
and the Validator runs afterwards on the files just written: whenever
the candidate batch is non-empty and `update_backend` succeeds, both
representations are written unconditionally, and the run exits 0 when
validation passes and 1 when it fails. -/
theorem importRun_validates_after_write (data : Store) (nps : List Poster)
    (replace : Bool) (now : Nat) (assets : String → Bool) (st : Store)
    (flat : List Poster) (hne : nps ≠ [])
    (hupd : update_backend data nps (!replace) now = some (st, flat)) :
    importRun data nps replace now assets =
      (some (st, flat),
        if validate_backend (some st.posters) (some flat) assets then 0 else 1) := by
  unfold importRun
  rw [if_neg (by simpa using hne)]
  simp only [hupd]
  split <;> simp [*]

theorem importRun_validates_after_write_witness :
    ([candWitness] : List Poster) ≠ [] ∧
    importRun st0 [candWitness] false 5 (fun _ => false) =
      (some (stWitness, [candWitness]),
        if validate_backend (some stWitness.posters) (some [candWitness])
            (fun _ => false) then 0 else 1) :=
  ⟨by decide, importRun_validates_after_write st0 [candWitness]
    false 5 (fun _ => false) _ _ (by decide) (by decide)⟩

/-! ### C1: curated-field preservation in `merge_poster` -/

theorem warn_of_supplied (existing new : Poster) (f : String) (now : Nat)
    (hf : f ∈ PRESERVE_FIELDS) (hc : hasCuratedField new f = true) :
    warnMsg f existing.id ∈ (merge_poster existing new now).2 := by
  show warnMsg f existing.id ∈
    (PRESERVE_FIELDS.filter (fun g => hasCuratedField new g)).map
      (fun g => warnMsg g existing.id)
  exact List.mem_map_of_mem _ (List.mem_filter.mpr ⟨hf, hc⟩)

/-- C1: for every existing record and same-id candidate, each curated
field present on the existing record and absent from the candidate is
preserved unchanged by `merge_poster`; when the candidate explicitly
supplies a curated field, the candidate's value appears in the merged
record and a warning-level message for that field is emitted. -/
theorem merge_poster_preserves_curated (existing new : Poster) (now : Nat)
    (hid : existing.id = new.id) :
    ((new.faq = none → (merge_poster existing new now).1.faq = existing.faq) ∧
      (∀ v, new.faq = some v → (merge_poster existing new now).1.faq = some v ∧
        warnMsg "faq" existing.id ∈ (merge_poster existing new now).2)) ∧
    ((new.booth_id = none →
        (merge_poster existing new now).1.booth_id = existing.booth_id) ∧
      (∀ v, new.booth_id = some v →
        (merge_poster existing new now).1.booth_id = some v ∧
        warnMsg "booth_id" existing.id ∈ (merge_poster existing new now).2)) ∧
    ((new.room = none → (merge_poster existing new now).1.room = existing.room) ∧
      (∀ v, new.room = some v → (merge_poster existing new now).1.room = some v ∧
        warnMsg "room" existing.id ∈ (merge_poster existing new now).2)) ∧
    ((new.related_links = none →
        (merge_poster existing new now).1.related_links = existing.related_links) ∧
      (∀ v, new.related_links = some v →
        (merge_poster existing new now).1.related_links = some v ∧
        warnMsg "related_links" existing.id ∈ (merge_poster existing new now).2)) ∧
    ((new.keywords = none →
        (merge_poster existing new now).1.keywords = existing.keywords) ∧
      (∀ v, new.keywords = some v →
        (merge_poster existing new now).1.keywords = some v ∧
        warnMsg "keywords" existing.id ∈ (merge_poster existing new now).2)) ∧
    ((new.contact_email = none →
        (merge_poster existing new now).1.contact_email = existing.contact_email) ∧
      (∀ v, new.contact_email = some v →
        (merge_poster existing new now).1.contact_email = some v ∧
        warnMsg "contact_email" existing.id ∈ (merge_poster existing new now).2)) := by
  refine ⟨⟨?_, ?_⟩, ⟨?_, ?_⟩, ⟨?_, ?_⟩, ⟨?_, ?_⟩, ⟨?_, ?_⟩, ⟨?_, ?_⟩⟩
  all_goals
    first
      | (intro h
         show mergeField _ _ = _
         rw [h]
         rfl)
      | (intro v hv
         refine ⟨?_, warn_of_supplied existing new _ now (by decide)
           (by simp [hasCuratedField, hv])⟩
         show mergeField _ _ = _
         rw [hv]
         rfl)

theorem merge_poster_preserves_curated_witness :
    exCurated.id = exCandidate.id ∧
    exCandidate.faq = none ∧
    (merge_poster exCurated exCandidate 3).1.faq = exCurated.faq ∧
    exCandidate.booth_id = some "B9" ∧
    (merge_poster exCurated exCandidate 3).1.booth_id = some "B9" ∧
    warnMsg "booth_id" exCurated.id ∈ (merge_poster exCurated exCandidate 3).2 := by
  have h := merge_poster_preserves_curated exCurated exCandidate 3 (by decide)
  exact ⟨by decide, by decide, h.1.1 (by decide), by decide,
    (h.2.1.2 "B9" (by decide)).1, (h.2.1.2 "B9" (by decide)).2⟩

/-! ### C3: idempotence of a repeated import

The development below characterizes one `update_backend` merge pass
well enough to compare two consecutive passes over the same extraction
batch. -/

theorem mergeField_of_imp {α : Type} (x y : Option α)
    (h : ∀ v, x = some v → y = some v) : mergeField x y = y := by
  cases hx : x with
  | none => rfl
  | some v => rw [h v hx]; rfl

theorem metadata_isSome_of_mcreated {p : Poster} (h : (mcreated p).isSome = true) :
    p.metadata.isSome = true := by
  cases hm : p.metadata with
  | none => simp [mcreated, hm] at h
  | some m => rfl

theorem merge_poster_metadata_isSome (e c : Poster) (now : Nat) :
    (merge_poster e c now).1.metadata.isSome = true := rfl

theorem merge_poster_mcreated (e c : Poster) (now : Nat) :
    (mcreated (merge_poster e c now).1).isSome = true := by
  cases hc : c.metadata <;> simp [mcreated, merge_poster, hc]

theorem merge_poster_msource (e c : Poster) (now : Nat) :
    msource (merge_poster e c now).1 = mergeField (msource c) (msource e) := by
  cases hc : c.metadata <;> cases he : e.metadata <;>
    simp [msource, merge_poster, mergeField, hc, he]

theorem merge_poster_msourceFile (e c : Poster) (now : Nat) :
    msourceFile (merge_poster e c now).1 = mergeField (msourceFile c) (msourceFile e) := by
  cases hc : c.metadata <;> cases he : e.metadata <;>
    simp [msourceFile, merge_poster, mergeField, hc, he]

/-- Re-merging a matching re-extraction into a ready record changes at
most timestamps. -/
theorem eqExceptTimestamps_merge_remerge (r c2 : Poster) (now : Nat)
    (h : remergeReady r c2) : eqExceptTimestamps (merge_poster r c2 now).1 r := by
  obtain ⟨⟨pid, hrid, hcid⟩, ht, ha, htg, hab, hpi, hcur, hcr, hs2, hs, hf2, hf⟩ := h
  obtain ⟨s, hsc⟩ := Option.isSome_iff_exists.mp hs2
  obtain ⟨sf, hfc⟩ := Option.isSome_iff_exists.mp hf2
  refine ⟨rfl, ⟨?_, ?_, ?_, ?_, ?_⟩, ⟨?_, ?_, ?_, ?_, ?_, ?_⟩, ?_, ?_, ?_⟩
  · exact mergeField_of_imp _ _ ht
  · exact mergeField_of_imp _ _ ha
  · exact mergeField_of_imp _ _ htg
  · exact mergeField_of_imp _ _ hab
  · exact mergeField_of_imp _ _ hpi
  · show mergeField c2.faq r.faq = r.faq
    rw [hcur.1]; rfl
  · show mergeField c2.booth_id r.booth_id = r.booth_id
    rw [hcur.2.1]; rfl
  · show mergeField c2.room r.room = r.room
    rw [hcur.2.2.1]; rfl
  · show mergeField c2.related_links r.related_links = r.related_links
    rw [hcur.2.2.2.1]; rfl
  · show mergeField c2.keywords r.keywords = r.keywords
    rw [hcur.2.2.2.2.1]; rfl
  · show mergeField c2.contact_email r.contact_email = r.contact_email
    rw [hcur.2.2.2.2.2]; rfl
  · rw [merge_poster_metadata_isSome, metadata_isSome_of_mcreated hcr]
  · rw [merge_poster_msource, hs, hsc]; rfl
  · rw [merge_poster_msourceFile, hf, hfc]; rfl

/-- After merging a candidate into any record, the result is ready for
a re-merge of an identical re-extraction. -/
theorem remergeReady_of_merge (e c c2 : Poster) (now : Nat)
    (hc : isCandidate c) (hc2 : isCandidate c2) (hs : sameExtract c c2)
    (hid : e.id = c.id) : remergeReady (merge_poster e c now).1 c2 := by
  obtain ⟨hcid, _, _, hcs, hcf⟩ := hc
  obtain ⟨_, hc2cur, _, hc2s, hc2f⟩ := hc2
  obtain ⟨hsid, hst, hsa, hstg, hsab, hspi, hss, hsf⟩ := hs
  obtain ⟨s, hcse⟩ := Option.isSome_iff_exists.mp hcs
  obtain ⟨sf, hcfe⟩ := Option.isSome_iff_exists.mp hcf
  obtain ⟨pid, hp⟩ := Option.isSome_iff_exists.mp hcid
  refine ⟨⟨pid, ?_, ?_⟩, ?_, ?_, ?_, ?_, ?_, hc2cur,
    merge_poster_mcreated e c now, hc2s, ?_, hc2f, ?_⟩
  · show e.id = some pid
    rw [hid, hp]
  · rw [← hsid, hp]
  · intro v hv
    show mergeField c.title e.title = some v
    rw [hst, hv]; rfl
  · intro v hv
    show mergeField c.authors e.authors = some v
    rw [hsa, hv]; rfl
  · intro v hv
    show mergeField c.tags e.tags = some v
    rw [hstg, hv]; rfl
  · intro v hv
    show mergeField c.abstract e.abstract = some v
    rw [hsab, hv]; rfl
  · intro v hv
    show mergeField c.poster_image e.poster_image = some v
    rw [hspi, hv]; rfl
  · rw [merge_poster_msource, ← hss, hcse]; rfl
  · rw [merge_poster_msourceFile, ← hsf, hcfe]; rfl

/-- A candidate inserted as a brand-new record is also ready for a
re-merge of an identical re-extraction. -/
theorem remergeReady_of_candidate (c c2 : Poster)
    (hc : isCandidate c) (hc2 : isCandidate c2) (hs : sameExtract c c2) :
    remergeReady c c2 := by
  obtain ⟨hcid, _, hccr, _, _⟩ := hc
  obtain ⟨_, hc2cur, _, hc2s, hc2f⟩ := hc2
  obtain ⟨hsid, hst, hsa, hstg, hsab, hspi, hss, hsf⟩ := hs
  obtain ⟨pid, hp⟩ := Option.isSome_iff_exists.mp hcid
  refine ⟨⟨pid, hp, by rw [← hsid, hp]⟩, ?_, ?_, ?_, ?_, ?_, hc2cur, hccr,
    hc2s, hss, hc2f, hsf⟩
  · intro v hv; rw [hst]; exact hv
  · intro v hv; rw [hsa]; exact hv
  · intro v hv; rw [hstg]; exact hv
  · intro v hv; rw [hsab]; exact hv
  · intro v hv; rw [hspi]; exact hv

theorem eqExceptTimestamps_refl (p : Poster) : eqExceptTimestamps p p :=
  ⟨rfl, ⟨rfl, rfl, rfl, rfl, rfl⟩, ⟨rfl, rfl, rfl, rfl, rfl, rfl⟩, rfl, rfl, rfl⟩

/-! Dict (association-list) facts. -/

theorem mapWF_tail {e : String × Poster} {m : List (String × Poster)}
    (h : mapWF (e :: m)) : mapWF m :=
  ⟨(List.nodup_cons.mp h.1).2, fun x hx => h.2 x (List.mem_cons_of_mem e hx)⟩

theorem dictGet_id {k : String} {p : Poster} :
    ∀ {m : List (String × Poster)}, mapWF m → dictGet m k = some p →
      p.id = some k := by
  intro m
  induction m with
  | nil => intro _ h; simp [dictGet] at h
  | cons e rest ih =>
    obtain ⟨k2, v⟩ := e
    intro hwf h
    by_cases hk : k2 = k
    · simp only [dictGet, if_pos hk] at h
      have := hwf.2 (k2, v) (by simp)
      rw [Option.some.inj h] at this
      rw [this, hk]
    · simp only [dictGet, if_neg hk] at h
      exact ih (mapWF_tail hwf) h

theorem dictGet_none {k : String} :
    ∀ {m : List (String × Poster)}, dictGet m k = none → ∀ e ∈ m, e.1 ≠ k := by
  intro m
  induction m with
  | nil => intro _ e he; simp at he
  | cons e2 rest ih =>
    obtain ⟨k2, v⟩ := e2
    intro h e he
    by_cases hk : k2 = k
    · simp [dictGet, if_pos hk] at h
    · simp only [dictGet, if_neg hk] at h
      rcases List.mem_cons.mp he with h1 | h1
      · rw [h1]; exact hk
      · exact ih h e h1

theorem dictDel_subset {k : String} :
    ∀ {m : List (String × Poster)}, ∀ e ∈ dictDel m k, e ∈ m := by
  intro m
  induction m with
  | nil => intro e he; simp [dictDel] at he
  | cons e2 rest ih =>
    obtain ⟨k2, v⟩ := e2
    intro e he
    by_cases hk : k2 = k
    · rw [dictDel, if_pos hk] at he
      exact List.mem_cons_of_mem _ he
    · rw [dictDel, if_neg hk] at he
      rcases List.mem_cons.mp he with h1 | h1
      · rw [h1]; exact List.mem_cons_self _ _
      · exact List.mem_cons_of_mem _ (ih e h1)

theorem mapWF_dictDel {k : String} :
    ∀ {m : List (String × Poster)}, mapWF m → mapWF (dictDel m k) := by
  intro m
  induction m with
  | nil => intro h; exact h
  | cons e rest ih =>
    obtain ⟨k2, v⟩ := e
    intro hwf
    by_cases hk : k2 = k
    · rw [dictDel, if_pos hk]
      exact mapWF_tail hwf
    · rw [dictDel, if_neg hk]
      refine ⟨?_, ?_⟩
      · rw [List.map_cons]
        refine List.nodup_cons.mpr ⟨?_, (ih (mapWF_tail hwf)).1⟩
        intro hmem
        obtain ⟨e2, he2, heq⟩ := List.mem_map.mp hmem
        exact (List.nodup_cons.mp hwf.1).1
          (heq ▸ List.mem_map_of_mem Prod.fst (dictDel_subset e2 he2))
      · intro x hx
        rcases List.mem_cons.mp hx with h1 | h1
        · rw [h1]; exact hwf.2 (k2, v) (by simp)
        · exact (ih (mapWF_tail hwf)).2 x h1

theorem dictDel_key_ne {k : String} :
    ∀ {m : List (String × Poster)}, mapWF m → ∀ e ∈ dictDel m k, e.1 ≠ k := by
  intro m
  induction m with
  | nil => intro _ e he; simp [dictDel] at he
  | cons e2 rest ih =>
    obtain ⟨k2, v⟩ := e2
    intro hwf e he
    by_cases hk : k2 = k
    · rw [dictDel, if_pos hk] at he
      intro heq
      apply (List.nodup_cons.mp hwf.1).1
      show k2 ∈ List.map Prod.fst rest
      rw [hk, ← heq]
      exact List.mem_map_of_mem Prod.fst he
    · rw [dictDel, if_neg hk] at he
      rcases List.mem_cons.mp he with h1 | h1
      · rw [h1]; exact hk
      · exact ih (mapWF_tail hwf) e h1

theorem dictInsert_append {k : String} {v : Poster} :
    ∀ {m : List (String × Poster)}, (∀ e ∈ m, e.1 ≠ k) →
      dictInsert m k v = m ++ [(k, v)] := by
  intro m
  induction m with
  | nil => intro _; rfl
  | cons e2 rest ih =>
    obtain ⟨k2, u⟩ := e2
    intro h
    rw [dictInsert, if_neg (h (k2, u) (by simp)), ih (fun e he => h e (by simp [he]))]
    rfl

theorem mem_keys_dictInsert {k x : String} {v : Poster} :
    ∀ {m : List (String × Poster)}, x ∈ (dictInsert m k v).map Prod.fst →
      x ∈ m.map Prod.fst ∨ x = k := by
  intro m
  induction m with
  | nil => intro h; simp [dictInsert] at h; exact Or.inr h
  | cons e2 rest ih =>
    obtain ⟨k2, u⟩ := e2
    intro h
    by_cases hk : k2 = k
    · rw [dictInsert, if_pos hk] at h
      simp only [List.map_cons, List.mem_cons] at h ⊢
      rcases h with h1 | h1
      · exact Or.inl (Or.inl h1)
      · exact Or.inl (Or.inr h1)
    · rw [dictInsert, if_neg hk] at h
      simp only [List.map_cons, List.mem_cons] at h ⊢
      rcases h with h1 | h1
      · exact Or.inl (Or.inl h1)
      · rcases ih h1 with h2 | h2
        · exact Or.inl (Or.inr h2)
        · exact Or.inr h2

theorem mapWF_dictInsert {k : String} {v : Poster} (hv : v.id = some k) :
    ∀ {m : List (String × Poster)}, mapWF m → mapWF (dictInsert m k v) := by
  intro m
  induction m with
  | nil =>
    intro _
    exact ⟨by simp [dictInsert], fun e he => by
      simp only [dictInsert, List.mem_singleton] at he
      rw [he]; exact hv⟩
  | cons e2 rest ih =>
    obtain ⟨k2, u⟩ := e2
    intro hwf
    by_cases hk : k2 = k
    · rw [dictInsert, if_pos hk]
      refine ⟨hwf.1, ?_⟩
      intro e he
      rcases List.mem_cons.mp he with h1 | h1
      · rw [h1]
        show v.id = some k2
        rw [hv, hk]
      · exact hwf.2 e (by simp [h1])
    · rw [dictInsert, if_neg hk]
      refine ⟨?_, ?_⟩
      · rw [List.map_cons]
        refine List.nodup_cons.mpr ⟨?_, (ih (mapWF_tail hwf)).1⟩
        intro hmem
        rcases mem_keys_dictInsert hmem with h1 | h1
        · exact (List.nodup_cons.mp hwf.1).1 h1
        · exact hk h1
      · intro x hx
        rcases List.mem_cons.mp hx with h1 | h1
        · rw [h1]; exact hwf.2 (k2, u) (by simp)
        · exact (ih (mapWF_tail hwf)).2 x h1

theorem buildMap_wf :
    ∀ (ps : List Poster) (acc m : List (String × Poster)),
      mapWF acc → buildMap ps acc = some m → mapWF m := by
  intro ps
  induction ps with
  | nil =>
    intro acc m hacc h
    rw [buildMap] at h
    rw [← Option.some.inj h]
    exact hacc
  | cons p rest ih =>
    intro acc m hacc h
    cases hid : p.id with
    | none => rw [buildMap, hid] at h; simp at h
    | some k =>
      rw [buildMap, hid] at h
      exact ih _ m (mapWF_dictInsert hid hacc) h

/-! Generic `Forall₂` helpers. -/

theorem forall₂_compose {α β γ : Type} {R : α → β → Prop} {S : β → γ → Prop}
    {T : α → γ → Prop} (hT : ∀ a b c, R a b → S b c → T a c) :
    ∀ {l1 : List α} {l2 : List β} {l3 : List γ},
      List.Forall₂ R l1 l2 → List.Forall₂ S l2 l3 → List.Forall₂ T l1 l3 := by
  intro l1 l2 l3 h1
  induction h1 generalizing l3 with
  | nil =>
    intro h2
    cases h2
    exact .nil
  | cons hr _ ih =>
    intro h2
    cases h2 with
    | cons hs hss => exact .cons (hT _ _ _ hr hs) (ih hss)

theorem forall₂_split {α β : Type} {R : α → β → Prop} :
    ∀ {xs ys : List β} {l : List α}, List.Forall₂ R l (xs ++ ys) →
      ∃ l1 l2, l = l1 ++ l2 ∧ List.Forall₂ R l1 xs ∧ List.Forall₂ R l2 ys := by
  intro xs
  induction xs with
  | nil => intro ys l h; exact ⟨[], l, rfl, .nil, h⟩
  | cons x xs ih =>
    intro ys l h
    rw [List.cons_append] at h
    obtain ⟨a, l', hr, hrest, rfl⟩ := List.forall₂_cons_right_iff.mp h
    obtain ⟨l1, l2, rfl, h1, h2⟩ := ih hrest
    exact ⟨a :: l1, l2, rfl, .cons hr h1, h2⟩

/-! The two merge-loop passes. -/

/-- First pass: running the merge loop on a candidate batch always
succeeds; it produces, in batch order, records ready for a re-merge of
an identical re-extraction, and retains exactly the map entries whose
keys do not occur in the batch. -/
theorem mergeLoop_first (now : Nat) :
    ∀ (batch batch2 : List Poster) (m : List (String × Poster)) (acc : List Poster),
      mapWF m → (∀ p ∈ batch, isCandidate p) → (∀ p ∈ batch2, isCandidate p) →
      List.Forall₂ sameExtract batch batch2 →
      ∃ m2 res, mergeLoop now batch m acc = some (m2, acc ++ res) ∧
        List.Forall₂ remergeReady res batch2 ∧
        res.map Poster.id = batch.map Poster.id ∧
        mapWF m2 ∧ (∀ e ∈ m2, e ∈ m) ∧
        (∀ e ∈ m2, (some e.1) ∉ batch.map Poster.id) := by
  intro batch
  induction batch with
  | nil =>
    intro batch2 m acc hwf _ _ hsame
    cases hsame
    exact ⟨m, [], by simp [mergeLoop], .nil, rfl, hwf, fun e he => he,
      fun e _ h => (List.not_mem_nil _ h)⟩
  | cons c rest ih =>
    intro batch2 m acc hwf hcand hcand2 hsame
    obtain ⟨c2, b2, hse, hrest, rfl⟩ := List.forall₂_cons_left_iff.mp hsame
    obtain ⟨pid, hpid⟩ := Option.isSome_iff_exists.mp (hcand c (by simp)).1
    cases hg : dictGet m pid with
    | some ex =>
      have hid : ex.id = c.id := by rw [dictGet_id hwf hg, hpid]
      have hred := remergeReady_of_merge ex c c2 now (hcand c (by simp))
        (hcand2 c2 (by simp)) hse hid
      obtain ⟨m2, res, hml, hf2, hmap, hwf2, hsub, hkey⟩ :=
        ih b2 (dictDel m pid) (acc ++ [(merge_poster ex c now).1]) (mapWF_dictDel hwf)
          (fun p hp => hcand p (by simp [hp])) (fun p hp => hcand2 p (by simp [hp]))
          hrest
      refine ⟨m2, (merge_poster ex c now).1 :: res, ?_, .cons hred hf2, ?_, hwf2,
        fun e he => dictDel_subset e (hsub e he), ?_⟩
      · simp only [mergeLoop, hpid, hg, hml]
        simp
      · simp only [List.map_cons]
        rw [hmap, show (merge_poster ex c now).1.id = ex.id from rfl, hid]
      · intro e he
        simp only [List.map_cons, List.mem_cons]
        rintro (h1 | h2)
        · rw [hpid] at h1
          exact dictDel_key_ne hwf e (hsub e he) (Option.some.inj h1)
        · exact hkey e he h2
    | none =>
      have hred := remergeReady_of_candidate c c2 (hcand c (by simp))
        (hcand2 c2 (by simp)) hse
      obtain ⟨m2, res, hml, hf2, hmap, hwf2, hsub, hkey⟩ :=
        ih b2 m (acc ++ [c]) hwf (fun p hp => hcand p (by simp [hp]))
          (fun p hp => hcand2 p (by simp [hp])) hrest
      refine ⟨m2, c :: res, ?_, .cons hred hf2, ?_, hwf2, hsub, ?_⟩
      · simp only [mergeLoop, hpid, hg, hml]
        simp
      · simp only [List.map_cons]
        rw [hmap]
      · intro e he
        simp only [List.map_cons, List.mem_cons]
        rintro (h1 | h2)
        · rw [hpid] at h1
          exact dictGet_none hg e (hsub e he) (Option.some.inj h1)
        · exact hkey e he h2

/-- Loading a store whose ids are present and unique yields its
records as dict entries in order, keyed by their ids. -/
theorem buildMap_entries :
    ∀ (ps : List Poster) (acc : List (String × Poster)),
      (∀ p ∈ ps, p.id.isSome) → (ps.map Poster.id).Nodup →
      (∀ p ∈ ps, ∀ e ∈ acc, p.id ≠ some e.1) →
      ∃ ents, buildMap ps acc = some (acc ++ ents) ∧
        List.Forall₂ (fun (e : String × Poster) p => e.2 = p ∧ some e.1 = p.id)
          ents ps := by
  intro ps
  induction ps with
  | nil => intro acc _ _ _; exact ⟨[], by simp [buildMap], .nil⟩
  | cons p rest ih =>
    intro acc hids hnd hdisj
    obtain ⟨k, hk⟩ := Option.isSome_iff_exists.mp (hids p (by simp))
    have hins : dictInsert acc k p = acc ++ [(k, p)] :=
      dictInsert_append (fun e he heq => hdisj p (by simp) e he (by rw [hk, heq]))
    obtain ⟨ents, hbm, hf⟩ := ih (acc ++ [(k, p)])
      (fun q hq => hids q (by simp [hq]))
      ((List.nodup_cons.mp hnd).2)
      (fun q hq e he => by
        rcases List.mem_append.mp he with h1 | h1
        · exact hdisj q (by simp [hq]) e h1
        · simp only [List.mem_singleton] at h1
          intro heq
          have hm : q.id ∈ rest.map Poster.id := List.mem_map_of_mem _ hq
          rw [heq, h1] at hm
          exact (List.nodup_cons.mp hnd).1 (by rw [hk]; exact hm))
    refine ⟨(k, p) :: ents, ?_, .cons ⟨rfl, hk.symm⟩ hf⟩
    simp only [buildMap, hk, hins, hbm]
    simp

/-- Second pass: when the front of the dict lines up pointwise with
the batch (same keys, re-merge-ready values) and the remaining entries
are keyed off the batch, the merge loop rewrites exactly the front, in
order, changing at most timestamps. -/
theorem mergeLoop_second (now : Nat) :
    ∀ (pairs : List (String × Poster)) (batch2 : List Poster)
      (rest : List (String × Poster)) (acc : List Poster),
      List.Forall₂ (fun (e : String × Poster) c2 =>
        remergeReady e.2 c2 ∧ e.2.id = some e.1) pairs batch2 →
      (∀ e ∈ rest, ∀ c2 ∈ batch2, c2.id ≠ some e.1) →
      ∃ out, mergeLoop now batch2 (pairs ++ rest) acc = some (rest, acc ++ out) ∧
        List.Forall₂ eqExceptTimestamps out (pairs.map Prod.snd) := by
  intro pairs
  induction pairs with
  | nil =>
    intro batch2 rest acc hf _
    cases hf
    exact ⟨[], by simp [mergeLoop], .nil⟩
  | cons e pairs2 ih =>
    intro batch2 rest acc hf hdisj
    obtain ⟨c2, b2, ⟨hready, heid⟩, hfrest, rfl⟩ := List.forall₂_cons_left_iff.mp hf
    obtain ⟨k, v⟩ := e
    have hvid : v.id = some k := heid
    have hc2id : c2.id = some k := by
      obtain ⟨pid, hrid, hcid⟩ := hready.1
      rw [hcid, Option.some.inj (hrid.symm.trans hvid)]
    obtain ⟨out, hml, hout⟩ := ih b2 rest (acc ++ [(merge_poster v c2 now).1]) hfrest
      (fun e2 he2 c hc => hdisj e2 he2 c (by simp [hc]))
    refine ⟨(merge_poster v c2 now).1 :: out, ?_,
      .cons (eqExceptTimestamps_merge_remerge v c2 now hready) hout⟩
    rw [List.cons_append]
    simp only [mergeLoop, hc2id, dictGet, dictDel, if_pos, eq_self_iff_true, if_true,
      hml]
    simp

/-- The dict entries aligned with the values of a well-formed map are
that map itself. -/
theorem entries_eq_of_wf :
    ∀ (m ents : List (String × Poster)),
      (∀ e ∈ m, e.2.id = some e.1) →
      List.Forall₂ (fun (e : String × Poster) p => e.2 = p ∧ some e.1 = p.id) ents
        (m.map Prod.snd) →
      ents = m := by
  intro m
  induction m with
  | nil =>
    intro ents _ hf
    rw [List.map_nil] at hf
    cases hf
    rfl
  | cons e m2 ih =>
    intro ents hid hf
    rw [List.map_cons] at hf
    obtain ⟨f, ents2, ⟨hfe, hfid⟩, hrest, rfl⟩ := List.forall₂_cons_right_iff.mp hf
    have h1 : f = e := by
      apply Prod.ext
      · exact Option.some.inj (hfid.trans (hid e (by simp)))
      · exact hfe
    rw [h1, ih ents2 (fun x hx => hid x (by simp [hx])) hrest]

theorem map_snd_of_forall₂ :
    ∀ {ents : List (String × Poster)} {res : List Poster},
      List.Forall₂ (fun (e : String × Poster) p => e.2 = p ∧ some e.1 = p.id)
        ents res →
      ents.map Prod.snd = res := by
  intro ents res h
  induction h with
  | nil => rfl
  | cons h1 _ ih => simp only [List.map_cons, h1.1, ih]

theorem sameExtract_map_id {batch batch2 : List Poster}
    (h : List.Forall₂ sameExtract batch batch2) :
    batch.map Poster.id = batch2.map Poster.id := by
  induction h with
  | nil => rfl
  | cons h1 _ ih => simp only [List.map_cons, h1.1, ih]

/-! Closed-form evaluation of a merge-mode `update_backend`. -/

theorem update_backend_merge_none (data : Store) (nps : List Poster) (now : Nat)
    (hb : buildMap data.posters [] = none) :
    update_backend data nps true now = none := by
  unfold update_backend
  rw [if_pos rfl]
  split
  · rfl
  · next m heq =>
    rw [hb] at heq
    simp at heq

theorem update_backend_merge_eq (data : Store) (nps : List Poster) (now : Nat)
    (m0 m2 : List (String × Poster)) (res : List Poster)
    (hb : buildMap data.posters [] = some m0)
    (hml : mergeLoop now nps m0 [] = some (m2, res)) :
    update_backend data nps true now =
      some ({ schema_version := data.schema_version, last_updated := now,
              posters := res ++ m2.map Prod.snd },
            res ++ m2.map Prod.snd) := by
  unfold update_backend
  rw [if_pos rfl]
  split
  · next heq => rw [hb] at heq; simp at heq
  · next m heq =>
    rw [hb] at heq
    rw [← Option.some.inj heq]
    split
    · next heq2 => rw [hml] at heq2; simp at heq2
    · next m2x resx heq2 =>
      rw [hml] at heq2
      simp only [Option.some.injEq, Prod.mk.injEq] at heq2
      obtain ⟨h1, h2⟩ := heq2
      rw [← h1, ← h2]

/-- C3: importing the same source batch a second time (`batch2`, an
identical re-extraction of `batch`: same ids, content fields and
provenance source, with distinct ids as `process_pdfs` assigns them)
into the store produced by the first import changes no curated field
and leaves every content field equal: the two structured stores agree
record-for-record on ids, content fields, curated fields and
provenance source, differing at most in the
`created_at`/`updated_at`/`last_updated` timestamps, and likewise for
the flat representations. -/
theorem import_batch_idempotent
    (data0 : Store) (batch batch2 : List Poster) (now1 now2 : Nat)
    (st1 st2 : Store) (flat1 flat2 : List Poster)
    (hnodup : (batch.map Poster.id).Nodup)
    (hcand : ∀ p ∈ batch, isCandidate p)
    (hcand2 : ∀ p ∈ batch2, isCandidate p)
    (hsame : List.Forall₂ sameExtract batch batch2)
    (h1 : update_backend data0 batch true now1 = some (st1, flat1))
    (h2 : update_backend st1 batch2 true now2 = some (st2, flat2)) :
    List.Forall₂ eqExceptTimestamps st2.posters st1.posters ∧
    st2.schema_version = st1.schema_version ∧
    List.Forall₂ eqExceptTimestamps flat2 flat1 := by
  cases hb1 : buildMap data0.posters [] with
  | none =>
    rw [update_backend_merge_none data0 batch now1 hb1] at h1
    simp at h1
  | some m0 =>
    have hwf0 : mapWF m0 := buildMap_wf data0.posters [] m0 ⟨List.nodup_nil, by simp⟩ hb1
    obtain ⟨m2, res, hml1, hf2, hmap, hwf2, hsub, hkey⟩ :=
      mergeLoop_first now1 batch batch2 m0 [] hwf0 hcand hcand2 hsame
    rw [List.nil_append] at hml1
    rw [update_backend_merge_eq data0 batch now1 m0 m2 res hb1 hml1] at h1
    simp only [Option.some.injEq, Prod.mk.injEq] at h1
    obtain ⟨hst1, hflat1⟩ := h1
    have hp1 : st1.posters = res ++ m2.map Prod.snd := by rw [← hst1]
    have hresids : ∀ r ∈ res, r.id.isSome := by
      intro r hr
      have hmem : r.id ∈ batch.map Poster.id := by
        rw [← hmap]; exact List.mem_map_of_mem _ hr
      obtain ⟨p, hp, hpe⟩ := List.mem_map.mp hmem
      rw [← hpe]; exact (hcand p hp).1
    have hids : ∀ p ∈ res ++ m2.map Prod.snd, p.id.isSome := by
      intro p hp
      rcases List.mem_append.mp hp with h | h
      · exact hresids p h
      · obtain ⟨e, he, rfl⟩ := List.mem_map.mp h
        rw [hwf2.2 e he]; rfl
    have hkeyids : (m2.map Prod.snd).map Poster.id = (m2.map Prod.fst).map some := by
      rw [List.map_map, List.map_map]
      refine List.map_congr_left ?_
      intro e he
      simp only [Function.comp_apply]
      exact hwf2.2 e he
    have hnd : ((res ++ m2.map Prod.snd).map Poster.id).Nodup := by
      rw [List.map_append]
      refine List.Nodup.append ?_ ?_ ?_
      · rw [hmap]; exact hnodup
      · rw [hkeyids]
        exact hwf2.1.map (Option.some_injective String)
      · intro a ha hb
        rw [hmap] at ha
        rw [hkeyids] at hb
        obtain ⟨x, hx, rfl⟩ := List.mem_map.mp hb
        obtain ⟨e, he, rfl⟩ := List.mem_map.mp hx
        exact hkey e he ha
    obtain ⟨ents, hbm2, hfents⟩ :=
      buildMap_entries (res ++ m2.map Prod.snd) [] hids hnd (by simp)
    rw [List.nil_append] at hbm2
    obtain ⟨e1, em, rfl, hfe1, hfe2⟩ := forall₂_split hfents
    have hem : em = m2 := entries_eq_of_wf m2 em hwf2.2 hfe2
    rw [hem] at hbm2
    have hpairs : List.Forall₂ (fun (e : String × Poster) c2 =>
        remergeReady e.2 c2 ∧ e.2.id = some e.1) e1 batch2 :=
      forall₂_compose
        (fun e r c2 hR hS => ⟨by rw [hR.1]; exact hS, by rw [hR.1]; exact hR.2.symm⟩)
        hfe1 hf2
    have hdisj2 : ∀ e ∈ m2, ∀ c2 ∈ batch2, c2.id ≠ some e.1 := by
      intro e he c2 hc2 heq
      have hmem : c2.id ∈ batch2.map Poster.id := List.mem_map_of_mem _ hc2
      rw [← sameExtract_map_id hsame] at hmem
      rw [heq] at hmem
      exact hkey e he hmem
    obtain ⟨out, hml2, hout⟩ := mergeLoop_second now2 e1 batch2 m2 [] hpairs hdisj2
    rw [List.nil_append] at hml2
    rw [update_backend_merge_eq st1 batch2 now2 (e1 ++ m2) m2 out
      (by rw [hp1]; exact hbm2) hml2] at h2
    simp only [Option.some.injEq, Prod.mk.injEq] at h2
    obtain ⟨hst2, hflat2⟩ := h2
    have hout2 : List.Forall₂ eqExceptTimestamps out res := by
      rw [map_snd_of_forall₂ hfe1] at hout
      exact hout
    have hmain : List.Forall₂ eqExceptTimestamps (out ++ m2.map Prod.snd)
        (res ++ m2.map Prod.snd) :=
      List.rel_append hout2 (List.forall₂_same.mpr fun x _ => eqExceptTimestamps_refl x)
    refine ⟨?_, ?_, ?_⟩
    · rw [← hst2, hp1]
      exact hmain
    · rw [← hst2]
    · rw [← hflat2, ← hflat1]
      exact hmain

theorem import_batch_idempotent_witness :
    (([candWitness].map Poster.id).Nodup ∧
     (∀ p ∈ [candWitness], isCandidate p) ∧
     List.Forall₂ sameExtract [candWitness] [candWitness] ∧
     update_backend st0 [candWitness] true 1 = some (stW1, [candWitness]) ∧
     update_backend stW1 [candWitness] true 2 =
       some (stW2, [(merge_poster candWitness candWitness 2).1])) ∧
    List.Forall₂ eqExceptTimestamps stW2.posters stW1.posters := by
  have hcand : ∀ p ∈ [candWitness], isCandidate p := by
    intro p hp
    rw [List.mem_singleton] at hp
    subst hp
    decide
  have hsame : List.Forall₂ sameExtract [candWitness] [candWitness] :=
    .cons (by decide) .nil
  have h1 : update_backend st0 [candWitness] true 1 = some (stW1, [candWitness]) := by
    decide
  have h2 : update_backend stW1 [candWitness] true 2 =
      some (stW2, [(merge_poster candWitness candWitness 2).1]) := by
    decide
  exact ⟨⟨by decide, hcand, hsame, h1, h2⟩,
    (import_batch_idempotent st0 [candWitness] [candWitness] 1 2 stW1 stW2
      [candWitness] [(merge_poster candWitness candWitness 2).1]
      (by decide) hcand hcand hsame h1 h2).1⟩

end MadImport
